import Mathlib

set_option autoImplicit false

/-!
Verification of the wall-inference engine of `script.py` (architectural mode).

The engine (function `on_ok_button_click`, architectural branch, lines
627-894, plus the helpers `segment_direction` (219-225) and `snap_angle`
(228-234)) is shallowly embedded below over real numbers.  Python floats
are modelled as reals, Python `%` on floats as `pymod`, Python `round`
(banker's rounding) as `pyround`, `math.atan2` as `atan2`, and the partial
indexing `selected_families[0]` via `Option`.
-/

namespace WallModel

noncomputable section

open Real

/-- A 3-dimensional point (Revit XYZ). -/
structure Pt where
  x : ℝ
  y : ℝ
  z : ℝ

/-- A segment record, mirroring the Python dict
`{start, end, direction, length, used}`. -/
structure Seg where
  pstart : Pt
  pstop : Pt
  dir : ℝ × ℝ
  len : ℝ
  used : Bool

/-- A wall placement tuple `(mid_point, angle, length, wall_fam)`. -/
structure Placement where
  mid : Pt
  angle : ℝ
  len : ℝ
  fam : String

/-- Planar (x,y) distance, as computed by the repeated
`math.sqrt((..X - ..X) ** 2 + (..Y - ..Y) ** 2)` pattern. -/
def dist2 (p q : Pt) : ℝ := Real.sqrt ((q.x - p.x) ^ 2 + (q.y - p.y) ^ 2)

/-- Three-dimensional distance (Revit `XYZ.DistanceTo`). -/
def dist3 (p q : Pt) : ℝ :=
  Real.sqrt ((q.x - p.x) ^ 2 + (q.y - p.y) ^ 2 + (q.z - p.z) ^ 2)

/-- Python `a % m` for real `a` and positive modulus `m`
(result has the sign of the divisor). -/
def pymod (a m : ℝ) : ℝ := a - m * ⌊a / m⌋

/-- Python `int(round(x))`: round half to even. Away from exact halves this
agrees with Mathlib `round` (round half up). -/
def pyround (x : ℝ) : ℤ :=
  if Int.fract x = 1 / 2 then (if 2 ∣ ⌊x⌋ then ⌊x⌋ else ⌊x⌋ + 1) else round x

/-- `math.atan2 y x` over the reals (range `(-π, π]`, `atan2 0 0 = 0`). -/
def atan2 (y x : ℝ) : ℝ :=
  if 0 < x then Real.arctan (y / x)
  else if x < 0 then
    (if 0 ≤ y then Real.arctan (y / x) + π else Real.arctan (y / x) - π)
  else (if 0 < y then π / 2 else if y < 0 then -(π / 2) else 0)

/-- Magnitude `math.sqrt(dx * dx + dy * dy)` of `segment_direction`. -/
def segMag (p1 p2 : Pt) : ℝ :=
  Real.sqrt ((p2.x - p1.x) * (p2.x - p1.x) + (p2.y - p1.y) * (p2.y - p1.y))

/-- `segment_direction` (script.py lines 219-225): normalized planar
direction, or `(0, 0)` when the planar magnitude is below `1e-9`. -/
def segment_direction (p1 p2 : Pt) : ℝ × ℝ :=
  if segMag p1 p2 < 1 / 1000000000 then (0, 0)
  else ((p2.x - p1.x) / segMag p1 p2, (p2.y - p1.y) / segMag p1 p2)

/-- `snap_angle` (script.py lines 228-234): snap an angle to the nearest
cardinal of `{0, π/2, π, 3π/2}` when `angle % 2π` is within `0.01` of it. -/
def snap_angle (angle : ℝ) : ℝ :=
  let m := pymod angle (2 * π)
  if |m - 0| < 0.01 then 0
  else if |m - π / 2| < 0.01 then π / 2
  else if |m - π| < 0.01 then π
  else if |m - 3 * π / 2| < 0.01 then 3 * π / 2
  else angle

/-- Digit runs of a character list, each parsed as a natural number
(Python `re.findall(r'\d+', s)` followed by `int`). -/
def digitRunsAux : List Char → Option ℕ → List ℕ
  | [], none => []
  | [], some n => [n]
  | c :: cs, none =>
    if c.isDigit then digitRunsAux cs (some (c.toNat - 48)) else digitRunsAux cs none
  | c :: cs, some n =>
    if c.isDigit then digitRunsAux cs (some (n * 10 + (c.toNat - 48)))
    else n :: digitRunsAux cs none

/-- The first integer greater than 10 among the digit runs of a wall-family
label (`[int(x) for x in re.findall(r'\d+', wall_fam) if int(x) > 10][0]`). -/
def extractWidth (fam : String) : Option ℕ :=
  (List.filter (fun n => 10 < n) (digitRunsAux fam.data none)).head?

/-- Width-match test for one catalog entry:
`abs(distance_mm - desired_width) <= 0.5`; an entry without a qualifying
integer never matches. -/
def widthMatches (mm : ℤ) (fam : String) : Bool :=
  match extractWidth fam with
  | none => false
  | some w => decide (|(mm : ℝ) - (w : ℝ)| ≤ 0.5)

/-- First catalog entry (in caller order) whose extracted width matches. -/
def findMatch (cat : List String) (mm : ℤ) : Option String :=
  cat.find? (widthMatches mm)

/-- Midpoint of a segment, averaging all three coordinates. -/
def segMid (s : Seg) : Pt :=
  ⟨(s.pstart.x + s.pstop.x) / 2, (s.pstart.y + s.pstop.y) / 2,
    (s.pstart.z + s.pstop.z) / 2⟩

/-- `math.atan2(seg['direction'][1], seg['direction'][0])`. -/
def rawAngle (s : Seg) : ℝ := atan2 s.dir.2 s.dir.1

/-- Segment list of a point list (script.py lines 641-653): one segment per
consecutive point pair. -/
def buildSegments (pts : List Pt) : List Seg :=
  (pts.zip pts.tail).map fun pq =>
    ⟨pq.1, pq.2, segment_direction pq.1 pq.2, dist2 pq.1 pq.2, false⟩

/-- Fuse the accumulator with the next segment (lines 673-684): keep the
accumulator start, take the next end, recompute direction and length. -/
def fuse (cur s : Seg) : Seg :=
  ⟨cur.pstart, s.pstop, segment_direction cur.pstart s.pstop,
    dist2 cur.pstart s.pstop, false⟩

/-- Collinearity test of the merger (lines 663-666):
`abs((atan2 d1 - atan2 d2) % π)` close to `0` or to `π`. -/
def isCollinear (cur s : Seg) : Prop :=
  |pymod (rawAngle cur - rawAngle s) π| < 0.1 ∨
    |(|pymod (rawAngle cur - rawAngle s) π|) - π| < 0.1

instance (cur s : Seg) : Decidable (isCollinear cur s) := by
  unfold isCollinear; infer_instance

/-- Body of the collinear-merge fold (lines 660-711), with the
accumulator segment, the remembered gap, and the remaining input. -/
def mergeLoop (cur : Seg) (lastGap : Option ℝ) : List Seg → List Seg
  | [] => [cur]
  | s :: rest =>
    if isCollinear cur s then
      let gap := dist2 cur.pstop s.pstart
      if gap < 0.1 then mergeLoop (fuse cur s) none rest
      else
        match lastGap with
        | some g =>
          if |gap - g| < 0.1 then mergeLoop (fuse cur s) (some g) rest
          else cur :: mergeLoop s (some gap) rest
        | none => cur :: mergeLoop s (some gap) rest
    else cur :: mergeLoop s none rest

/-- The collinear merger (lines 655-713). -/
def mergeSegments : List Seg → List Seg
  | [] => []
  | s :: rest => mergeLoop s none rest

/-- Group-key test of the direction grouper (lines 721-724). -/
def groupKeyMatches (g a : ℝ) : Prop :=
  |g - a| < 0.1 ∨ |g - a + π| < 0.1 ∨ |g - a - π| < 0.1

instance (g a : ℝ) : Decidable (groupKeyMatches g a) := by
  unfold groupKeyMatches; infer_instance

/-- Direction of a merged segment reduced modulo π (line 719). -/
def segGroupAngle (s : Seg) : ℝ := pymod (rawAngle s) π

/-- Insert a segment into the ordered group list: append to the first group
whose key matches, else open a new group keyed by the segment's angle. -/
def insertIntoGroups : List (ℝ × List Seg) → ℝ → Seg → List (ℝ × List Seg)
  | [], a, s => [(a, [s])]
  | (g, ss) :: rest, a, s =>
    if groupKeyMatches g a then (g, ss ++ [s]) :: rest
    else (g, ss) :: insertIntoGroups rest a s

/-- The direction grouper (lines 716-729); group order is insertion order,
as for a Python dict. -/
def buildGroups (segs : List Seg) : List (ℝ × List Seg) :=
  segs.foldl (fun gs s => insertIntoGroups gs (segGroupAngle s) s) []

/-- Location-collision test (lines 746-749 and 836-839): some accumulated
placement has its midpoint within `0.01` of the candidate midpoint. -/
def collides (acc : List Placement) (m : Pt) : Prop :=
  ∃ p ∈ acc, dist3 p.mid m < 0.01

instance (acc : List Placement) (m : Pt) : Decidable (collides acc m) := by
  unfold collides; infer_instance

/-- Singleton-group case of the width matcher (lines 733-771).  The
fallback `selected_families[0]` is partial: with an empty catalog it
fails, modelled by `none`. -/
def processSingleton (cat : List String) (acc : List Placement) (s : Seg) :
    Option (List Placement) :=
  if s.used then some acc
  else
    let m := segMid s
    let wallAngle := rawAngle s
    if collides acc m then some acc
    else
      let mm := pyround (s.len * 304.8)
      match findMatch cat mm with
      | some fam => some (acc ++ [⟨m, wallAngle, s.len, fam⟩])
      | none =>
        match cat.head? with
        | some fam => some (acc ++ [⟨m, wallAngle, s.len, fam⟩])
        | none => none

/-- Default segment used for out-of-range list access. -/
def seg0 : Seg := ⟨⟨0, 0, 0⟩, ⟨0, 0, 0⟩, (0, 0), 0, false⟩

/-- Geometry of one candidate pair (lines 793-832): the candidate midpoint
between the longer segment's midpoint and its projection onto the shorter
segment's line, and the perpendicular separation. -/
def pairCompute (seg1 seg2 : Seg) : Pt × ℝ :=
  let dv := seg1.dir
  let perp : ℝ × ℝ := (-dv.2, dv.1)
  let longer := if seg2.len < seg1.len then seg1 else seg2
  let shorter := if seg2.len < seg1.len then seg2 else seg1
  let lmid := segMid longer
  let vtm : ℝ × ℝ := (lmid.x - shorter.pstart.x, lmid.y - shorter.pstart.y)
  let dirDot := vtm.1 * dv.1 + vtm.2 * dv.2
  let projPoint : Pt :=
    ⟨shorter.pstart.x + dirDot * dv.1, shorter.pstart.y + dirDot * dv.2,
      shorter.pstart.z⟩
  let mid : Pt :=
    ⟨(lmid.x + projPoint.x) / 2, (lmid.y + projPoint.y) / 2,
      (lmid.z + projPoint.z) / 2⟩
  let distance :=
    |(lmid.x * perp.1 + lmid.y * perp.2) -
      (projPoint.x * perp.1 + projPoint.y * perp.2)|
  (mid, distance)

/-- Angle normalization of the pair case (lines 860-862): subtract π when
the raw angle reduced modulo π exceeds π/2. -/
def normalizeWallAngle (a : ℝ) : ℝ := if π / 2 < pymod a π then a - π else a

/-- The placement emitted on a successful pair match (lines 855-866). -/
def pairPlacement (seg1 seg2 : Seg) (fam : String) : Placement :=
  let longer := if seg2.len < seg1.len then seg1 else seg2
  ⟨(pairCompute seg1 seg2).1, normalizeWallAngle (rawAngle longer),
    longer.len, fam⟩

/-- Inner loop of the pair matcher (lines 782-871), iterating `j` with the
given fuel; on a catalog match it emits a placement, marks both indices
used, and breaks. -/
def innerLoop (cat : List String) (segs : List Seg) (i : ℕ) :
    ℕ → ℕ → List Bool → List Placement → List Bool × List Placement
  | 0, _, used, acc => (used, acc)
  | k + 1, j, used, acc =>
    if used.getD j false then innerLoop cat segs i k (j + 1) used acc
    else
      let seg1 := segs.getD i seg0
      let seg2 := segs.getD j seg0
      if used.getD i false ∨ used.getD j false then
        innerLoop cat segs i k (j + 1) used acc
      else
        let pc := pairCompute seg1 seg2
        if collides acc pc.1 then innerLoop cat segs i k (j + 1) used acc
        else
          match findMatch cat (pyround (pc.2 * 304.8)) with
          | some fam =>
            ((used.set i true).set j true, acc ++ [pairPlacement seg1 seg2 fam])
          | none => innerLoop cat segs i k (j + 1) used acc

/-- Outer loop of the pair matcher (lines 778-874): skip used indices, run
the inner loop, and break out entirely when index `i` ended up used. -/
def outerLoop (cat : List String) (segs : List Seg) :
    ℕ → ℕ → List Bool → List Placement → List Bool × List Placement
  | 0, _, used, acc => (used, acc)
  | k + 1, i, used, acc =>
    if used.getD i false then outerLoop cat segs k (i + 1) used acc
    else
      let r := innerLoop cat segs i (segs.length - (i + 1)) (i + 1) used acc
      if r.1.getD i false then r
      else outerLoop cat segs k (i + 1) r.1 r.2

/-- Stable insertion into a length-descending list (`sorted(...,
key=length, reverse=True)` keeps ties in encounter order). -/
def sortDescInsert (s : Seg) : List Seg → List Seg
  | [] => [s]
  | t :: ts => if t.len < s.len then s :: t :: ts else t :: sortDescInsert s ts

/-- Stable length-descending sort (line 775). -/
def sortByLengthDesc (l : List Seg) : List Seg :=
  l.foldl (fun acc s => sortDescInsert s acc) []

/-- Multiple-segment case of the width matcher (lines 773-874). -/
def processPairs (cat : List String) (acc : List Placement) (group : List Seg) :
    List Placement :=
  let sorted := sortByLengthDesc group
  (outerLoop cat sorted sorted.length 0 (List.replicate sorted.length false) acc).2

/-- One direction group of the width matcher (lines 732-874). -/
def processGroup (cat : List String) (acc : List Placement) (group : List Seg) :
    Option (List Placement) :=
  match group with
  | [] => some acc
  | [s] => processSingleton cat acc s
  | _ => some (processPairs cat acc group)

/-- All direction groups of one element, in insertion order. -/
def processGroupList (cat : List String) (acc : List Placement) :
    List (ℝ × List Seg) → Option (List Placement)
  | [] => some acc
  | g :: gs => (processGroup cat acc g.2).bind fun a2 => processGroupList cat a2 gs

/-- An input element: a type tag plus either an explicit point list or a
start/end pair. -/
structure Element where
  etype : String
  points : Option (List Pt)
  estart : Option Pt
  estop : Option Pt

/-- Python `str.lower()` for the ASCII type tags, character by
character. -/
def lowerString (s : String) : String := String.mk (s.data.map Char.toLower)

/-- Element-type filter (lines 629-630). -/
def validElementType (t : String) : Prop :=
  lowerString t ∈ (["polyline", "mline", "multiline"] : List String)

instance (t : String) : Decidable (validElementType t) := by
  unfold validElementType; infer_instance

/-- Point list of an element (lines 631-636). -/
def elementPts (e : Element) : Option (List Pt) :=
  match e.points with
  | some ps => some ps
  | none =>
    match e.estart, e.estop with
    | some a, some b => some [a, b]
    | _, _ => none

/-- The direction groups built for one element, from that element's own
merged segments only. -/
def groupsOfPts (pts : List Pt) : List (ℝ × List Seg) :=
  buildGroups (mergeSegments (buildSegments pts))

/-- Processing of one element (lines 628-874): build, merge, group, and
match the element's own segments against the accumulated placements. -/
def processElement (cat : List String) (acc : List Placement) (e : Element) :
    Option (List Placement) :=
  if validElementType e.etype then
    match elementPts e with
    | none => some acc
    | some pts =>
      if pts.length < 2 then some acc
      else processGroupList cat acc (groupsOfPts pts)
  else some acc

/-- The per-element outer loop (line 628). -/
def processElements (cat : List String) : List Element → List Placement →
    Option (List Placement)
  | [], acc => some acc
  | e :: es, acc => (processElement cat acc e).bind (processElements cat es)

/-- Dedup equivalence (lines 881-883): midpoints within `0.01`, angles
within `0.01`, identical wall-family label. -/
def equivPlacement (c e : Placement) : Prop :=
  dist3 c.mid e.mid < 0.01 ∧ |c.angle - e.angle| < 0.01 ∧ c.fam = e.fam

instance (c e : Placement) : Decidable (equivPlacement c e) := by
  unfold equivPlacement; infer_instance

/-- One deduplication step: keep the candidate unless an already-accepted
placement is equivalent to it. -/
def dedupStep (acc : List Placement) (c : Placement) : List Placement :=
  if ∃ e ∈ acc, equivPlacement c e then acc else acc ++ [c]

/-- The deduplicator (lines 877-888). -/
def dedupPlacements (ps : List Placement) : List Placement :=
  ps.foldl dedupStep []

/-- The sort key `get_placement_position` (lines 891-892). -/
def placementKey (p : Placement) : ℝ :=
  p.mid.x * Real.cos p.angle + p.mid.y * Real.sin p.angle

/-- Stable insertion into a key-ascending list. -/
def sortAscInsert (s : Placement) : List Placement → List Placement
  | [] => [s]
  | t :: ts =>
    if placementKey t ≤ placementKey s then t :: sortAscInsert s ts
    else s :: t :: ts

/-- The order stabilizer (line 894): stable ascending sort by
`placementKey`. -/
def sortPlacements (ps : List Placement) : List Placement :=
  ps.foldl (fun acc s => sortAscInsert s acc) []

/-- The whole inference engine: per-element processing, then dedup, then
the stabilizing sort. -/
def engineOutput (cat : List String) (els : List Element) :
    Option (List Placement) :=
  (processElements cat els []).map fun ps => sortPlacements (dedupPlacements ps)

/-- The wall family chosen by the singleton case: the first thickness
match, else the first catalog entry. -/
def singletonFam (cat : List String) (s : Seg) : String :=
  match findMatch cat (pyround (s.len * 304.8)) with
  | some fam => fam
  | none => cat.headI

/-- A concrete horizontal segment of length 7 (feet), used as a witness
input for the singleton fallback scenario. -/
def seg7 : Seg := ⟨⟨0, 0, 0⟩, ⟨7, 0, 0⟩, (1, 0), 7, false⟩

/-- A concrete placement used as a witness input. -/
def P0 : Placement := ⟨⟨0, 0, 0⟩, 0, 0, "X"⟩

/-- A concrete polyline element: one horizontal segment of length 7. -/
def e7 : Element := ⟨"PolyLine", some [⟨0, 0, 0⟩, ⟨7, 0, 0⟩], none, none⟩

/-- The placement the engine emits for `e7` with catalog `["W150"]`. -/
def P7 : Placement := ⟨⟨7 / 2, 0, 0⟩, 0, 7, "W150"⟩

/-- A horizontal unit segment ending at the origin (merger input 1). -/
def segA7 : Seg := ⟨⟨-1, 0, 0⟩, ⟨0, 0, 0⟩, (1, 0), 1, false⟩

/-- A short vertical segment starting at the origin (merger input 2). -/
def segB7 : Seg := ⟨⟨0, 0, 0⟩, ⟨0, 0.001, 0⟩, (0, 1), 0.001, false⟩

/-- A short vertical segment laterally offset from `segB7` by 0.09
(merger input 3). -/
def segC7 : Seg := ⟨⟨0.09, 0.001, 0⟩, ⟨0.09, 0.002, 0⟩, (0, 1), 0.001, false⟩

/-- Length of the fused `segB7`-`segC7` segment. -/
def mBC : ℝ := Real.sqrt 0.008104

/-- The fused `segB7`-`segC7` segment: its recomputed direction is almost
horizontal although both inputs are vertical. -/
def segBC : Seg :=
  ⟨⟨0, 0, 0⟩, ⟨0.09, 0.002, 0⟩, (0.09 / mBC, 0.002 / mBC), mBC, false⟩

/-- 150 millimeters expressed in the internal length unit. -/
def tft : ℝ := 150 / 304.8

/-- Horizontal segment of length 10 at height 0. -/
def s1x : Seg := ⟨⟨0, 0, 0⟩, ⟨10, 0, 0⟩, (1, 0), 10, false⟩

/-- Horizontal segment of length 9 at height `tft` (matches `s1x`). -/
def s2x : Seg := ⟨⟨0, tft, 0⟩, ⟨9, tft, 0⟩, (1, 0), 9, false⟩

/-- Horizontal segment of length 8 at height 100. -/
def s3x : Seg := ⟨⟨0, 100, 0⟩, ⟨8, 100, 0⟩, (1, 0), 8, false⟩

/-- Horizontal segment of length 7 at height `100 + tft` (matches
`s3x`). -/
def s4x : Seg := ⟨⟨0, 100 + tft, 0⟩, ⟨7, 100 + tft, 0⟩, (1, 0), 7, false⟩

/-- The (only) placement emitted for the group `[s1x, s2x, s3x, s4x]`. -/
def PX : Placement := ⟨⟨5, tft / 2, 0⟩, 0, 10, "W150"⟩

/-- The placement emitted for the group `[s3x, s4x]` alone. -/
def PY : Placement := ⟨⟨4, 100 + tft / 2, 0⟩, 0, 8, "W150"⟩

/-- A degenerate element carrying a single point. -/
def e1pt : Element := ⟨"PolyLine", some [⟨0, 0, 0⟩], none, none⟩

/-- A near-duplicate of `P7`: midpoint 0.001 away, same angle, same
wall type. -/
def P7b : Placement := ⟨⟨7 / 2 + 0.001, 0, 0⟩, 0, 7, "W150"⟩

/-- Cosine of −π/4 (the x and minus-y components of a down-right
diagonal unit direction). -/
def cth : ℝ := Real.sqrt 2 / 2

/-- Diagonal down-right segment of length 10 through the origin. -/
def sD1 : Seg := ⟨⟨0, 0, 0⟩, ⟨10 * cth, -10 * cth, 0⟩, (cth, -cth), 10, false⟩

/-- Diagonal down-right segment of length 9, offset from `sD1` by `tft`
along the perpendicular. -/
def sD2 : Seg :=
  ⟨⟨tft * cth, tft * cth, 0⟩,
    ⟨tft * cth + 9 * cth, tft * cth - 9 * cth, 0⟩, (cth, -cth), 9, false⟩

/-- The placement the pair case emits for `[sD1, sD2]`: its angle is
−5π/4, outside `(−π/2, π/2]`. -/
def PD : Placement :=
  ⟨⟨5 * cth + tft * cth / 2, -5 * cth + tft * cth / 2, 0⟩,
    -(5 * π / 4), 10, "W150"⟩

/-- Length of a nearly horizontal segment tilted 0.005 upward per unit. -/
def mE : ℝ := Real.sqrt 1.000025

/-- A segment whose direction angle `arctan 0.005` is within 0.01 rad of
the cardinal 0 but not equal to it. -/
def segE : Seg := ⟨⟨0, 0, 0⟩, ⟨1, 0.005, 0⟩, (1 / mE, 0.005 / mE), mE, false⟩

/-- The placement emitted for the singleton group `[segE]`: its angle is
the raw `arctan 0.005`, not snapped to 0. -/
def PE : Placement := ⟨⟨1 / 2, 0.0025, 0⟩, Real.arctan 0.005, mE, "W150"⟩

/-- First of two parallel standalone elements (length-10 horizontal). -/
def e10a : Element := ⟨"PolyLine", some [⟨0, 0, 0⟩, ⟨10, 0, 0⟩], none, none⟩

/-- Second parallel element, offset perpendicular by exactly `tft`
(150 mm) from `e10a`. -/
def e10b : Element := ⟨"PolyLine", some [⟨0, tft, 0⟩, ⟨10, tft, 0⟩], none, none⟩

/-- The segment built from `e10a`. -/
def seg10a : Seg := ⟨⟨0, 0, 0⟩, ⟨10, 0, 0⟩, (1, 0), 10, false⟩

/-- The segment built from `e10b`. -/
def seg10b : Seg := ⟨⟨0, tft, 0⟩, ⟨10, tft, 0⟩, (1, 0), 10, false⟩

/-- The singleton placement emitted for `e10a`. -/
def P10a : Placement := ⟨⟨5, 0, 0⟩, 0, 10, "W150"⟩

/-- The singleton placement emitted for `e10b`. -/
def P10b : Placement := ⟨⟨5, tft, 0⟩, 0, 10, "W150"⟩

end

open Real

lemma sqrt_eq_of_sq {a b : ℝ} (hb : 0 ≤ b) (h : b ^ 2 = a) : Real.sqrt a = b := by
  rw [← h, Real.sqrt_sq hb]

lemma pyround_eq_round {x : ℝ} (h : Int.fract x ≠ 1 / 2) : pyround x = round x :=
  if_neg h

lemma atan2_of_pos {y x : ℝ} (hx : 0 < x) : atan2 y x = Real.arctan (y / x) :=
  if_pos hx

lemma atan2_zero_one : atan2 0 1 = 0 := by
  rw [atan2_of_pos one_pos]
  norm_num

lemma atan2_one_zero : atan2 1 0 = Real.pi / 2 := by
  unfold atan2
  norm_num

lemma arctan_lt_self {x : ℝ} (h : 0 < x) : Real.arctan x < x := by
  have hp : 0 < Real.arctan x := by
    have h2 := Real.arctan_strictMono h
    rwa [Real.arctan_zero] at h2
  have h2 := Real.lt_tan hp (Real.arctan_lt_pi_div_two x)
  rwa [Real.tan_arctan] at h2

lemma arctan_pos {x : ℝ} (h : 0 < x) : 0 < Real.arctan x := by
  have h2 := Real.arctan_strictMono h
  rwa [Real.arctan_zero] at h2

lemma pymod_eval {a m : ℝ} {k : ℤ} (h : ⌊a / m⌋ = k) : pymod a m = a - m * k := by
  rw [pymod, h]

lemma pymod_of_nonneg_lt {a m : ℝ} (h0 : 0 ≤ a) (h1 : a < m) : pymod a m = a := by
  have hm : 0 < m := lt_of_le_of_lt h0 h1
  have hf : ⌊a / m⌋ = 0 := by
    rw [Int.floor_eq_zero_iff]
    constructor
    · positivity
    · rw [div_lt_one hm]; exact h1
  rw [pymod_eval hf]
  ring

lemma pymod_of_neg_ge {a m : ℝ} (h0 : -m ≤ a) (h1 : a < 0) (hm : 0 < m) :
    pymod a m = a + m := by
  have hf : ⌊a / m⌋ = -1 := by
    have hlow : (-1 : ℝ) ≤ a / m := by
      rw [neg_le, ← neg_div]
      exact (div_le_one hm).mpr (by linarith)
    have hhigh : a / m < 0 := div_neg_of_neg_of_pos h1 hm
    rw [Int.floor_eq_iff]
    constructor
    · exact_mod_cast hlow
    · push_cast
      linarith
  rw [pymod_eval hf]
  ring

lemma pymod_zero {m : ℝ} (hm : 0 < m) : pymod 0 m = 0 :=
  pymod_of_nonneg_lt le_rfl hm

/-- The singleton case, characterized: an unused segment with no midpoint
collision and a nonempty catalog yields exactly one appended placement,
with the raw (unsnapped, unnormalized) atan2 angle and the matched-or-
fallback wall family. -/
lemma processSingleton_emits (cat : List String) (acc : List Placement)
    (s : Seg) (hu : s.used = false) (hc : ¬ collides acc (segMid s))
    (hcat : cat ≠ []) :
    processSingleton cat acc s =
      some (acc ++ [⟨segMid s, rawAngle s, s.len, singletonFam cat s⟩]) := by
  unfold processSingleton
  rw [hu]
  simp only [Bool.false_eq_true, if_false, if_neg hc]
  unfold singletonFam
  cases h : findMatch cat (pyround (s.len * 304.8)) with
  | some fam => simp
  | none =>
    match cat, hcat with
    | c :: cs, _ => simp [List.headI]

lemma dist3_symm (p q : Pt) : dist3 p q = dist3 q p := by
  unfold dist3
  congr 1
  ring

lemma equivPlacement_symm {a b : Placement} (h : equivPlacement a b) :
    equivPlacement b a := by
  obtain ⟨h1, h2, h3⟩ := h
  exact ⟨by rwa [dist3_symm], by rwa [abs_sub_comm], h3.symm⟩

lemma dedup_foldl_append (l : List Placement) :
    ∀ acc, ∃ s, l.foldl dedupStep acc = acc ++ s ∧ s.Sublist l := by
  induction l with
  | nil => exact fun acc => ⟨[], by simp⟩
  | cons a l ih =>
    intro acc
    by_cases h : ∃ e ∈ acc, equivPlacement a e
    · obtain ⟨s, hs, hsub⟩ := ih acc
      refine ⟨s, ?_, hsub.cons a⟩
      simpa [dedupStep, if_pos h] using hs
    · obtain ⟨s, hs, hsub⟩ := ih (acc ++ [a])
      refine ⟨a :: s, ?_, hsub.cons₂ a⟩
      simp only [List.foldl_cons, dedupStep, if_neg h]
      rw [hs, List.append_assoc]
      rfl

lemma dedup_foldl_pairwise (l : List Placement) :
    ∀ acc, acc.Pairwise (fun a b => ¬ equivPlacement b a) →
      (l.foldl dedupStep acc).Pairwise (fun a b => ¬ equivPlacement b a) := by
  induction l with
  | nil => exact fun acc h => h
  | cons a l ih =>
    intro acc hacc
    by_cases h : ∃ e ∈ acc, equivPlacement a e
    · simpa [dedupStep, if_pos h] using ih acc hacc
    · simp only [List.foldl_cons, dedupStep, if_neg h]
      refine ih (acc ++ [a]) ?_
      rw [List.pairwise_append]
      refine ⟨hacc, by simp, ?_⟩
      intro x hx y hy
      simp only [List.mem_singleton] at hy
      subst hy
      push_neg at h
      exact h x hx

lemma dedup_foldl_discarded (l : List Placement) :
    ∀ acc c, c ∈ l → c ∉ l.foldl dedupStep acc →
      ∃ e ∈ l.foldl dedupStep acc, equivPlacement c e := by
  induction l with
  | nil => intro acc c hc; cases hc
  | cons a l ih =>
    intro acc c hc hnot
    simp only [List.foldl_cons] at hnot ⊢
    rcases List.mem_cons.mp hc with rfl | hmem
    · by_cases h : ∃ e ∈ acc, equivPlacement c e
      · obtain ⟨e, he, heq⟩ := h
        obtain ⟨s, hs, _⟩ := dedup_foldl_append l (dedupStep acc c)
        refine ⟨e, ?_, heq⟩
        rw [hs]
        have : e ∈ dedupStep acc c := by
          unfold dedupStep
          split
          · exact he
          · exact List.mem_append_left _ he
        exact List.mem_append_left _ this
      · exfalso
        apply hnot
        obtain ⟨s, hs, _⟩ := dedup_foldl_append l (dedupStep acc c)
        rw [hs]
        apply List.mem_append_left
        simp [dedupStep, if_neg h]
    · exact ih (dedupStep acc a) c hmem hnot

lemma sortAscInsert_perm (s : Placement) (l : List Placement) :
    (sortAscInsert s l).Perm (s :: l) := by
  induction l with
  | nil => rfl
  | cons t ts ih =>
    unfold sortAscInsert
    split
    · exact (ih.cons t).trans (List.Perm.swap s t ts)
    · rfl

lemma sortPlacements_foldl_perm (l : List Placement) :
    ∀ acc, (l.foldl (fun acc s => sortAscInsert s acc) acc).Perm (acc ++ l) := by
  induction l with
  | nil => simp
  | cons a l ih =>
    intro acc
    simp only [List.foldl_cons]
    refine (ih (sortAscInsert a acc)).trans ?_
    have h1 : (sortAscInsert a acc ++ l).Perm ((a :: acc) ++ l) :=
      (sortAscInsert_perm a acc).append_right l
    refine h1.trans ?_
    simpa using List.perm_middle.symm.append_left []

lemma sortPlacements_perm (l : List Placement) : (sortPlacements l).Perm l := by
  simpa using sortPlacements_foldl_perm l []

lemma sortAscInsert_sorted (s : Placement) (l : List Placement)
    (h : l.Sorted fun a b => placementKey a ≤ placementKey b) :
    (sortAscInsert s l).Sorted fun a b => placementKey a ≤ placementKey b := by
  induction l with
  | nil => simp [sortAscInsert]
  | cons t ts ih =>
    rw [List.sorted_cons] at h
    obtain ⟨ht, hts⟩ := h
    unfold sortAscInsert
    split
    · rename_i hle
      rw [List.sorted_cons]
      refine ⟨?_, ih hts⟩
      intro b hb
      have hmem := (sortAscInsert_perm s ts).mem_iff.mp hb
      rcases List.mem_cons.mp hmem with rfl | hmem2
      · exact hle
      · exact ht b hmem2
    · rename_i hnle
      push_neg at hnle
      rw [List.sorted_cons]
      refine ⟨?_, ?_⟩
      · intro b hb
        rcases List.mem_cons.mp hb with rfl | hmem2
        · exact le_of_lt hnle
        · exact le_trans (le_of_lt hnle) (ht b hmem2)
      · rw [List.sorted_cons]
        exact ⟨ht, hts⟩

lemma sortPlacements_sorted (l : List Placement) :
    (sortPlacements l).Sorted fun a b => placementKey a ≤ placementKey b := by
  have hgen : ∀ acc, acc.Sorted (fun a b => placementKey a ≤ placementKey b) →
      (l.foldl (fun acc s => sortAscInsert s acc) acc).Sorted
        fun a b => placementKey a ≤ placementKey b := by
    induction l with
    | nil => exact fun acc h => h
    | cons a l ih =>
      intro acc hacc
      exact ih (sortAscInsert a acc) (sortAscInsert_sorted a acc hacc)
  exact hgen [] (by simp)

/-- C6: a candidate is discarded by the deduplicator only when an
already-accepted placement is within 0.01 of its midpoint, within 0.01 rad
of its angle, and carries the same wall-type label; the survivors are a
subsequence of the input (first-seen wins), and no two placements of the
final (sorted) output are mutually equivalent in that sense. -/
theorem C6_dedup_invariant (ps : List Placement) :
    (dedupPlacements ps).Sublist ps ∧
    (∀ c ∈ ps, c ∉ dedupPlacements ps →
      ∃ e ∈ dedupPlacements ps, equivPlacement c e) ∧
    (sortPlacements (dedupPlacements ps)).Pairwise
      fun a b => ¬ equivPlacement a b := by
  refine ⟨?_, ?_, ?_⟩
  · obtain ⟨s, hs, hsub⟩ := dedup_foldl_append ps []
    unfold dedupPlacements
    rw [hs]
    simpa using hsub
  · exact fun c hc hnot => dedup_foldl_discarded ps [] c hc hnot
  · have h1 := dedup_foldl_pairwise ps [] (by simp)
    have h2 : (dedupPlacements ps).Pairwise fun a b => ¬ equivPlacement a b :=
      h1.imp fun h h2 => h (equivPlacement_symm h2)
    exact ((sortPlacements_perm (dedupPlacements ps)).pairwise_iff
      fun h h2 => h (equivPlacement_symm h2)).mpr h2

/-- C10: the final output is the deduplicated placement list sorted into
ascending order of the key
`midpoint.x * cos(angle) + midpoint.y * sin(angle)`: the stabilizing sort
permutes its input and leaves it sorted by that key, and the engine output
is exactly the sorted deduplicated placements. -/
theorem C10_output_sorted (ps : List Placement) :
    (sortPlacements ps).Perm ps ∧
    (sortPlacements ps).Sorted
      (fun a b => a.mid.x * Real.cos a.angle + a.mid.y * Real.sin a.angle ≤
        b.mid.x * Real.cos b.angle + b.mid.y * Real.sin b.angle) ∧
    ∀ cat els, engineOutput cat els =
      (processElements cat els []).map fun raw =>
        sortPlacements (dedupPlacements raw) :=
  ⟨sortPlacements_perm ps, sortPlacements_sorted ps, fun _ _ => rfl⟩

lemma getD_set_set_true (l : List Bool) (i j : ℕ) (h : i < l.length) :
    ((l.set i true).set j true).getD i false = true := by
  by_cases hij : j = i
  · subst hij
    rw [List.getD_eq_getElem?_getD, List.getElem?_set_self]
    · simp
    · simpa using h
  · rw [List.getD_eq_getElem?_getD, List.getElem?_set_ne hij,
      List.getElem?_set_self h]
    simp

lemma getD_mem {l : List Seg} {i : ℕ} (h : i < l.length) (d : Seg) :
    l.getD i d ∈ l := by
  rw [List.getD_eq_getElem?_getD, List.getElem?_eq_getElem h]
  simp [List.getElem_mem]

/-- The inner loop either returns its state untouched (no match found) or
stops at its first match, marking indices `i` and `j2` used and appending
the single corresponding placement. -/
lemma innerLoop_spec (cat : List String) (segs : List Seg) (i : ℕ) :
    ∀ k j used acc, j + k ≤ segs.length →
      innerLoop cat segs i k j used acc = (used, acc) ∨
      ∃ j2 fam, j ≤ j2 ∧ j2 < segs.length ∧
        innerLoop cat segs i k j used acc =
          ((used.set i true).set j2 true,
            acc ++ [pairPlacement (segs.getD i seg0) (segs.getD j2 seg0) fam]) := by
  intro k
  induction k with
  | zero => intro j used acc hjk; left; rfl
  | succ k ih =>
    intro j used acc hjk
    have hj : j < segs.length := by omega
    have hrec := ih (j + 1) used acc (by omega)
    simp only [innerLoop]
    split
    · rcases hrec with h | ⟨j2, fam, hj2a, hj2b, h⟩
      · exact Or.inl h
      · exact Or.inr ⟨j2, fam, by omega, hj2b, h⟩
    · split
      · rcases hrec with h | ⟨j2, fam, hj2a, hj2b, h⟩
        · exact Or.inl h
        · exact Or.inr ⟨j2, fam, by omega, hj2b, h⟩
      · split
        · rcases hrec with h | ⟨j2, fam, hj2a, hj2b, h⟩
          · exact Or.inl h
          · exact Or.inr ⟨j2, fam, by omega, hj2b, h⟩
        · split
          · rename_i fam heq
            exact Or.inr ⟨j, fam, le_rfl, hj, rfl⟩
          · rcases hrec with h | ⟨j2, fam, hj2a, hj2b, h⟩
            · exact Or.inl h
            · exact Or.inr ⟨j2, fam, by omega, hj2b, h⟩

/-- The outer loop appends at most one placement: the first successful
match breaks out of both loops. -/
lemma outerLoop_appends (cat : List String) (segs : List Seg) :
    ∀ k i used acc, used.length = segs.length →
      (outerLoop cat segs k i used acc).2 = acc ∨
        ∃ p, (outerLoop cat segs k i used acc).2 = acc ++ [p] := by
  intro k
  induction k with
  | zero => intro i used acc hlen; left; rfl
  | succ k ih =>
    intro i used acc hlen
    simp only [outerLoop]
    split
    · exact ih (i + 1) used acc hlen
    · by_cases hn : i + 1 ≤ segs.length
      · rcases innerLoop_spec cat segs i (segs.length - (i + 1)) (i + 1) used acc
          (by omega) with h | ⟨j2, fam, hj2a, hj2b, h⟩
        · rw [h]
          simp only
          rename_i hused
          rw [if_neg hused]
          exact ih (i + 1) used acc hlen
        · rw [h]
          simp only
          rw [if_pos (getD_set_set_true used i j2 (by omega))]
          exact Or.inr ⟨_, rfl⟩
      · have hz : segs.length - (i + 1) = 0 := by omega
        rw [hz]
        simp only [innerLoop]
        rename_i hused
        rw [if_neg hused]
        exact ih (i + 1) used acc hlen

/-- Every placement appended by the outer loop pairs two segments of the
processed list. -/
lemma outerLoop_mem (cat : List String) (segs : List Seg) :
    ∀ k i used acc p, used.length = segs.length →
      p ∈ (outerLoop cat segs k i used acc).2 →
      p ∈ acc ∨ ∃ a b fam, a ∈ segs ∧ b ∈ segs ∧ p = pairPlacement a b fam := by
  intro k
  induction k with
  | zero => intro i used acc p hlen hp; exact Or.inl hp
  | succ k ih =>
    intro i used acc p hlen hp
    simp only [outerLoop] at hp
    split at hp
    · exact ih (i + 1) used acc p hlen hp
    · by_cases hn : i + 1 ≤ segs.length
      · rcases innerLoop_spec cat segs i (segs.length - (i + 1)) (i + 1) used acc
          (by omega) with h | ⟨j2, fam, hj2a, hj2b, h⟩
        · rw [h] at hp
          simp only at hp
          rename_i hused
          rw [if_neg hused] at hp
          exact ih (i + 1) used acc p hlen hp
        · rw [h] at hp
          simp only at hp
          rw [if_pos (getD_set_set_true used i j2 (by omega))] at hp
          rcases List.mem_append.mp hp with hp2 | hp2
          · exact Or.inl hp2
          · refine Or.inr ⟨segs.getD i seg0, segs.getD j2 seg0, fam,
              getD_mem (by omega) seg0, getD_mem hj2b seg0, ?_⟩
            simpa using hp2
      · have hz : segs.length - (i + 1) = 0 := by omega
        rw [hz] at hp
        simp only [innerLoop] at hp
        rename_i hused
        rw [if_neg hused] at hp
        exact ih (i + 1) used acc p hlen hp

lemma sortDescInsert_perm (s : Seg) (l : List Seg) :
    (sortDescInsert s l).Perm (s :: l) := by
  induction l with
  | nil => rfl
  | cons t ts ih =>
    unfold sortDescInsert
    split
    · rfl
    · exact (ih.cons t).trans (List.Perm.swap s t ts)

lemma sortByLengthDesc_perm (l : List Seg) : (sortByLengthDesc l).Perm l := by
  have hgen : ∀ (l2 acc : List Seg),
      (List.foldl (fun acc s => sortDescInsert s acc) acc l2).Perm
        (acc ++ l2) := by
    intro l2
    induction l2 with
    | nil => simp
    | cons a l2 ih =>
      intro acc
      simp only [List.foldl_cons]
      refine (ih (sortDescInsert a acc)).trans ?_
      have h1 : (sortDescInsert a acc ++ l2).Perm ((a :: acc) ++ l2) :=
        (sortDescInsert_perm a acc).append_right l2
      refine h1.trans ?_
      simpa using List.perm_middle.symm.append_left []
  simpa using hgen l []

/-- Every placement appended by the multiple-segment case pairs two
segments of the group, and carries the normalized direction angle of the
longer one. -/
lemma processPairs_angle (cat : List String) (acc : List Placement)
    (group : List Seg) (p : Placement) (hp : p ∈ processPairs cat acc group) :
    p ∈ acc ∨ ∃ s ∈ group, p.angle = normalizeWallAngle (rawAngle s) := by
  unfold processPairs at hp
  rcases outerLoop_mem cat (sortByLengthDesc group) (sortByLengthDesc group).length
      0 (List.replicate (sortByLengthDesc group).length false) acc p (by simp) hp
    with h | ⟨a, b, fam, ha, hb, heq⟩
  · exact Or.inl h
  · right
    subst heq
    unfold pairPlacement
    by_cases hlen : b.len < a.len
    · exact ⟨a, (sortByLengthDesc_perm group).mem_iff.mp ha, by simp [if_pos hlen]⟩
    · exact ⟨b, (sortByLengthDesc_perm group).mem_iff.mp hb, by simp [if_neg hlen]⟩

lemma processSingleton_isSome (cat : List String) (hcat : cat ≠ [])
    (acc : List Placement) (s : Seg) : (processSingleton cat acc s).isSome := by
  obtain ⟨c, cs, rfl⟩ := List.exists_cons_of_ne_nil hcat
  unfold processSingleton
  split
  · simp
  · by_cases hc : collides acc (segMid s)
    · simp [if_pos hc]
    · rw [if_neg hc]
      cases h : findMatch (c :: cs) (pyround (s.len * 304.8)) with
      | none => simp [h]
      | some fam => simp [h]

lemma processGroup_isSome (cat : List String) (hcat : cat ≠ [])
    (acc : List Placement) (g : List Seg) : (processGroup cat acc g).isSome := by
  match g with
  | [] => simp [processGroup]
  | [s] => exact processSingleton_isSome cat hcat acc s
  | a :: b :: t => simp [processGroup]

lemma processGroupList_isSome (cat : List String) (hcat : cat ≠ []) :
    ∀ (gs : List (ℝ × List Seg)) (acc : List Placement),
      (processGroupList cat acc gs).isSome := by
  intro gs
  induction gs with
  | nil => intro acc; simp [processGroupList]
  | cons g gs ih =>
    intro acc
    obtain ⟨a2, ha2⟩ := Option.isSome_iff_exists.mp
      (processGroup_isSome cat hcat acc g.2)
    simp only [processGroupList, ha2, Option.bind_some]
    exact ih a2

lemma processElement_isSome (cat : List String) (hcat : cat ≠ [])
    (acc : List Placement) (e : Element) : (processElement cat acc e).isSome := by
  unfold processElement
  split
  · split
    · simp
    · split
      · simp
      · exact processGroupList_isSome cat hcat _ acc
  · simp

lemma processElements_isSome (cat : List String) (hcat : cat ≠ []) :
    ∀ (els : List Element) (acc : List Placement),
      (processElements cat els acc).isSome := by
  intro els
  induction els with
  | nil => intro acc; simp [processElements]
  | cons e es ih =>
    intro acc
    obtain ⟨a2, ha2⟩ := Option.isSome_iff_exists.mp
      (processElement_isSome cat hcat acc e)
    simp only [processElements, ha2, Option.bind_some]
    exact ih a2

/-- C1 (amended): once a pair is matched, the matcher breaks out of the
inner loop and the outer loop alike, so the multiple-segment case of a
direction group appends at most one placement to the accumulated list. -/
theorem C1_pair_case_appends_at_most_one (cat : List String)
    (acc : List Placement) (group : List Seg) :
    (processPairs cat acc group).length ≤ acc.length + 1 := by
  unfold processPairs
  rcases outerLoop_appends cat (sortByLengthDesc group)
      (sortByLengthDesc group).length 0
      (List.replicate (sortByLengthDesc group).length false) acc (by simp)
    with h | ⟨p, h⟩
  · rw [h]; omega
  · rw [h]; simp

/-- C2 (amended): a singleton direction group with an unused segment emits
exactly one placement — the first catalog thickness match, else the first
catalog entry as fallback — provided no already-accumulated placement lies
within 0.01 of the segment midpoint; on such a collision nothing is
emitted. -/
theorem C2_singleton_emits_unless_collision (cat : List String)
    (acc : List Placement) (s : Seg) (hu : s.used = false)
    (hc : ¬ collides acc (segMid s)) (hcat : cat ≠ []) :
    processGroup cat acc [s] =
      some (acc ++ [⟨segMid s, rawAngle s, s.len, singletonFam cat s⟩]) :=
  processSingleton_emits cat acc s hu hc hcat

/-- C2 witness: a length-7 segment with a non-matching one-entry catalog
still produces exactly one placement, using that sole catalog entry. -/
theorem C2_singleton_witness :
    seg7.used = false ∧ ¬ collides [] (segMid seg7) ∧
      (["W150"] : List String) ≠ [] ∧
      processGroup ["W150"] [] [seg7] =
        some ([] ++ [⟨segMid seg7, rawAngle seg7, seg7.len,
          singletonFam ["W150"] seg7⟩]) :=
  ⟨rfl, by simp [collides], by simp,
    C2_singleton_emits_unless_collision ["W150"] [] seg7 rfl
      (by simp [collides]) (by simp)⟩

/-- C3 (amended): every placement emitted by the multiple-segment case
carries `normalizeWallAngle` of some group segment's raw atan2 angle
(π subtracted iff the raw angle mod π exceeds π/2), and that value lies in
(−π/2, π/2] whenever the raw angle lies in [0, π); raw angles outside
[0, π) can produce angles outside that interval. -/
theorem C3_pair_angle_normalized :
    (∀ (cat : List String) (acc : List Placement) (group : List Seg)
      (p : Placement), p ∈ processPairs cat acc group →
      p ∈ acc ∨ ∃ s ∈ group, p.angle = normalizeWallAngle (rawAngle s)) ∧
    ∀ a : ℝ, 0 ≤ a → a < π →
      -(π / 2) < normalizeWallAngle a ∧ normalizeWallAngle a ≤ π / 2 := by
  constructor
  · exact processPairs_angle
  · intro a h0 hpi
    unfold normalizeWallAngle
    rw [pymod_of_nonneg_lt h0 hpi]
    have hp := Real.pi_pos
    split
    · constructor <;> linarith
    · rename_i h
      push_neg at h
      constructor <;> linarith

/-- C3 witness: instantiation of the amended statement at concrete
inputs. -/
theorem C3_pair_angle_witness :
    P0 ∈ processPairs [] [P0] [] ∧
      (P0 ∈ [P0] ∨ ∃ s ∈ ([] : List Seg),
        P0.angle = normalizeWallAngle (rawAngle s)) ∧
      (0 : ℝ) ≤ 0 ∧ (0 : ℝ) < π ∧
      -(π / 2) < normalizeWallAngle 0 ∧ normalizeWallAngle 0 ≤ π / 2 := by
  have hp : P0 ∈ processPairs [] [P0] [] := by
    simp [processPairs, sortByLengthDesc, outerLoop]
  obtain ⟨h1, h2⟩ := C3_pair_angle_normalized
  obtain ⟨h3, h4⟩ := h2 0 le_rfl Real.pi_pos
  exact ⟨hp, h1 [] [P0] [] P0 hp, le_rfl, Real.pi_pos, h3, h4⟩

/-- C4 (amended): no cardinal snapping is applied in the architectural
engine: the singleton case emits exactly the raw atan2 angle of the
segment direction, and the pair case emits exactly the normalized raw
angle of the longer segment — `snap_angle` is not involved. -/
theorem C4_no_angle_snapping :
    (∀ (cat : List String) (acc : List Placement) (s : Seg),
      s.used = false → ¬ collides acc (segMid s) → cat ≠ [] →
      processGroup cat acc [s] =
        some (acc ++ [⟨segMid s, rawAngle s, s.len, singletonFam cat s⟩])) ∧
    ∀ (cat : List String) (acc : List Placement) (group : List Seg)
      (p : Placement), p ∈ processPairs cat acc group →
      p ∈ acc ∨ ∃ s ∈ group, p.angle = normalizeWallAngle (rawAngle s) :=
  ⟨processSingleton_emits, processPairs_angle⟩

/-- C4 witness: instantiation of the amended statement at concrete
inputs. -/
theorem C4_no_angle_snapping_witness :
    seg7.used = false ∧ ¬ collides [] (segMid seg7) ∧
      (["W150"] : List String) ≠ [] ∧
      processGroup ["W150"] [] [seg7] =
        some ([] ++ [⟨segMid seg7, rawAngle seg7, seg7.len,
          singletonFam ["W150"] seg7⟩]) ∧
      P0 ∈ processPairs [] [P0] [] ∧
      (P0 ∈ [P0] ∨ ∃ s ∈ ([] : List Seg),
        P0.angle = normalizeWallAngle (rawAngle s)) := by
  have hp : P0 ∈ processPairs [] [P0] [] := by
    simp [processPairs, sortByLengthDesc, outerLoop]
  exact ⟨rfl, by simp [collides], by simp,
    C4_no_angle_snapping.1 ["W150"] [] seg7 rfl (by simp [collides]) (by simp),
    hp, C4_no_angle_snapping.2 [] [P0] [] P0 hp⟩

/-- C9 (amended): with a nonempty catalog the engine is total — it
terminates with `some` placement list on every input; the nonemptiness
hypothesis is necessary because the singleton fallback indexes the first
catalog entry. -/
theorem C9_engine_total_nonempty_catalog (cat : List String)
    (els : List Element) (hcat : cat ≠ []) :
    ∃ ps, engineOutput cat els = some ps := by
  obtain ⟨raw, hraw⟩ := Option.isSome_iff_exists.mp
    (processElements_isSome cat hcat els [])
  exact ⟨sortPlacements (dedupPlacements raw), by
    unfold engineOutput
    rw [hraw]
    simp⟩

/-- C9 witness: the empty-input run with a one-entry catalog succeeds. -/
theorem C9_engine_total_witness :
    (["W150"] : List String) ≠ [] ∧
      ∃ ps, engineOutput ["W150"] [] = some ps :=
  ⟨by simp, C9_engine_total_nonempty_catalog ["W150"] [] (by simp)⟩

lemma sqrt49 : Real.sqrt 49 = 7 := sqrt_eq_of_sq (by norm_num) (by norm_num)

lemma segMag_eval {p1 p2 : Pt} {v r : ℝ}
    (hv : (p2.x - p1.x) * (p2.x - p1.x) + (p2.y - p1.y) * (p2.y - p1.y) = v)
    (hr : 0 ≤ r) (h : r ^ 2 = v) : segMag p1 p2 = r := by
  unfold segMag
  rw [hv]
  exact sqrt_eq_of_sq hr h

lemma segment_direction_eval {p1 p2 : Pt} {r : ℝ} (hm : segMag p1 p2 = r)
    (h : ¬ (r < 1 / 1000000000)) :
    segment_direction p1 p2 = ((p2.x - p1.x) / r, (p2.y - p1.y) / r) := by
  unfold segment_direction
  rw [hm, if_neg h]

lemma dist2_e7 : dist2 ⟨0, 0, 0⟩ ⟨7, 0, 0⟩ = 7 := by
  unfold dist2
  norm_num [sqrt49]

lemma segdir_e7 : segment_direction ⟨0, 0, 0⟩ ⟨7, 0, 0⟩ = (1, 0) := by
  rw [segment_direction_eval
    (segMag_eval (by norm_num) (by norm_num) (by norm_num : (7 : ℝ) ^ 2 = 49))
    (by norm_num)]
  norm_num

lemma buildSegments_e7 : buildSegments [⟨0, 0, 0⟩, ⟨7, 0, 0⟩] = [seg7] := by
  show [(⟨⟨0, 0, 0⟩, ⟨7, 0, 0⟩, segment_direction ⟨0, 0, 0⟩ ⟨7, 0, 0⟩,
    dist2 ⟨0, 0, 0⟩ ⟨7, 0, 0⟩, false⟩ : Seg)] = [seg7]
  rw [segdir_e7, dist2_e7]
  rfl

lemma segMid_seg7 : segMid seg7 = ⟨7 / 2, 0, 0⟩ := by
  unfold segMid seg7
  norm_num

lemma rawAngle_seg7 : rawAngle seg7 = 0 := atan2_zero_one

lemma pyround_7ft : pyround (7 * 304.8) = 2134 := by
  have hf : Int.fract ((7 : ℝ) * 304.8) ≠ 1 / 2 := by
    rw [Int.fract]
    norm_num
  rw [pyround_eq_round hf, round_eq]
  norm_num

lemma findMatch_W150_2134 : findMatch ["W150"] 2134 = none := by
  have hw : widthMatches 2134 ("W150") = false := by
    unfold widthMatches
    rw [show extractWidth ("W150") = some 150 from rfl]
    rw [decide_eq_false_iff_not]
    push_cast
    norm_num
  unfold findMatch
  rw [List.find?_cons_of_neg _ (by rw [hw]; simp), List.find?_nil]

lemma singletonFam_seg7 : singletonFam ["W150"] seg7 = "W150" := by
  unfold singletonFam
  rw [show pyround (seg7.len * 304.8) = 2134 from pyround_7ft, findMatch_W150_2134]
  rfl

lemma processSingleton_e7_empty :
    processSingleton ["W150"] [] seg7 = some [P7] := by
  rw [processSingleton_emits ["W150"] [] seg7 rfl (by simp [collides]) (by simp)]
  rw [segMid_seg7, rawAngle_seg7, singletonFam_seg7]
  rfl

lemma collides_P7_seg7 : collides [P7] (segMid seg7) := by
  refine ⟨P7, by simp, ?_⟩
  rw [segMid_seg7]
  show dist3 ⟨7 / 2, 0, 0⟩ ⟨7 / 2, 0, 0⟩ < 0.01
  unfold dist3
  norm_num

lemma processSingleton_e7_collision :
    processSingleton ["W150"] [P7] seg7 = some [P7] := by
  unfold processSingleton
  simp only [show seg7.used = false from rfl, Bool.false_eq_true, if_false]
  rw [if_pos collides_P7_seg7]

lemma groupsOf_e7 : groupsOfPts [⟨0, 0, 0⟩, ⟨7, 0, 0⟩] =
    [(segGroupAngle seg7, [seg7])] := by
  unfold groupsOfPts
  rw [buildSegments_e7]
  rfl

lemma processElement_e7 (cat : List String) (acc : List Placement) :
    processElement cat acc e7 = processSingleton cat acc seg7 := by
  unfold processElement
  rw [if_pos (by decide : validElementType e7.etype)]
  show (if ([⟨0, 0, 0⟩, ⟨7, 0, 0⟩] : List Pt).length < 2 then some acc
    else processGroupList cat acc (groupsOfPts [⟨0, 0, 0⟩, ⟨7, 0, 0⟩])) = _
  rw [if_neg (by norm_num), groupsOf_e7]
  show (processGroup cat acc [seg7]).bind
    (fun a2 => processGroupList cat a2 []) = _
  cases h : processSingleton cat acc seg7 with
  | none => simp [processGroup, h]
  | some a => simp [processGroup, processGroupList, h]

/-- C2 counterexample: with catalog `["W150"]`, running the engine on two
identical standalone-segment elements yields a single placement; the
second element's singleton group has an unused segment yet emits nothing
(its midpoint collides with the first element's placement), refuting
"every standalone segment produces exactly one placement". -/
theorem C2_singleton_counterexample :
    seg7.used = false ∧
      processGroup ["W150"] [P7] [seg7] = some [P7] ∧
      engineOutput ["W150"] [e7, e7] = some [P7] := by
  refine ⟨rfl, processSingleton_e7_collision, ?_⟩
  unfold engineOutput
  have h1 : processElements ["W150"] [e7, e7] [] = some [P7] := by
    unfold processElements
    rw [processElement_e7, processSingleton_e7_empty]
    show processElements ["W150"] [e7] [P7] = some [P7]
    unfold processElements
    rw [processElement_e7, processSingleton_e7_collision]
    rfl
  rw [h1]
  have h2 : dedupPlacements [P7] = [P7] := by
    simp [dedupPlacements, dedupStep]
  simp only [Option.map_some', h2]
  rfl

/-- C9 counterexample: with an empty catalog, a single standalone-segment
element drives the singleton fallback into indexing the first entry of an
empty list, and the engine fails instead of returning a placement list. -/
theorem C9_empty_catalog_counterexample :
    engineOutput [] [e7] = none := by
  unfold engineOutput
  have h1 : processSingleton [] [] seg7 = none := by
    unfold processSingleton
    simp only [show seg7.used = false from rfl, Bool.false_eq_true, if_false]
    rw [if_neg (by simp [collides])]
    rfl
  have h2 : processElements [] [e7] [] = none := by
    unfold processElements
    rw [processElement_e7, h1]
    rfl
  rw [h2]
  rfl

lemma rawAngle_A7 : rawAngle segA7 = 0 := atan2_zero_one

lemma rawAngle_B7 : rawAngle segB7 = π / 2 := atan2_one_zero

lemma rawAngle_C7 : rawAngle segC7 = π / 2 := atan2_one_zero

lemma pymod_neg_half_pi : pymod (0 - π / 2) π = π / 2 := by
  have hp := Real.pi_pos
  rw [show (0 : ℝ) - π / 2 = -(π / 2) by ring,
    pymod_of_neg_ge (by linarith) (by linarith) hp]
  ring

lemma not_collinear_AB : ¬ isCollinear segA7 segB7 := by
  unfold isCollinear
  rw [rawAngle_A7, rawAngle_B7, pymod_neg_half_pi]
  have hp := Real.pi_gt_three
  push_neg
  rw [abs_of_pos (by linarith), abs_of_neg (by linarith)]
  constructor <;> linarith

lemma collinear_BC : isCollinear segB7 segC7 := by
  unfold isCollinear
  left
  rw [rawAngle_B7, rawAngle_C7, sub_self, pymod_zero Real.pi_pos]
  norm_num

lemma gap_BC : dist2 segB7.pstop segC7.pstart = 0.09 := by
  unfold dist2
  rw [show (segC7.pstart.x - segB7.pstop.x) ^ 2 +
    (segC7.pstart.y - segB7.pstop.y) ^ 2 = (0.0081 : ℝ) from by
      norm_num [segB7, segC7]]
  exact sqrt_eq_of_sq (by norm_num) (by norm_num)

lemma mBC_pos : 0 < mBC := Real.sqrt_pos.mpr (by norm_num)

lemma mBC_not_small : ¬ (mBC < 1 / 1000000000) := by
  have h1 : Real.sqrt 0.000001 ≤ mBC := Real.sqrt_le_sqrt (by norm_num)
  have h2 : Real.sqrt 0.000001 = 0.001 := sqrt_eq_of_sq (by norm_num) (by norm_num)
  push_neg
  rw [h2] at h1
  linarith

lemma segMag_BC : segMag ⟨0, 0, 0⟩ ⟨0.09, 0.002, 0⟩ = mBC := by
  unfold segMag mBC
  norm_num

lemma segdir_BC : segment_direction ⟨0, 0, 0⟩ ⟨0.09, 0.002, 0⟩ =
    (0.09 / mBC, 0.002 / mBC) := by
  rw [segment_direction_eval segMag_BC mBC_not_small]
  norm_num

lemma dist2_BC : dist2 ⟨0, 0, 0⟩ ⟨0.09, 0.002, 0⟩ = mBC := by
  unfold dist2 mBC
  rw [show (((⟨0.09, 0.002, 0⟩ : Pt).x - (⟨0, 0, 0⟩ : Pt).x) ^ 2 +
    ((⟨0.09, 0.002, 0⟩ : Pt).y - (⟨0, 0, 0⟩ : Pt).y) ^ 2) = (0.008104 : ℝ)
    from by norm_num]

lemma fuse_BC : fuse segB7 segC7 = segBC := by
  show Seg.mk segB7.pstart segC7.pstop
    (segment_direction segB7.pstart segC7.pstop)
    (dist2 segB7.pstart segC7.pstop) false = segBC
  rw [show segB7.pstart = (⟨0, 0, 0⟩ : Pt) from rfl,
    show segC7.pstop = (⟨0.09, 0.002, 0⟩ : Pt) from rfl,
    segdir_BC, dist2_BC]
  rfl

lemma merge_ABC : mergeSegments [segA7, segB7, segC7] = [segA7, segBC] := by
  show mergeLoop segA7 none [segB7, segC7] = _
  rw [mergeLoop, if_neg not_collinear_AB]
  rw [mergeLoop, if_pos collinear_BC]
  rw [gap_BC, if_pos (by norm_num : (0.09 : ℝ) < 0.1), fuse_BC]
  rfl

lemma arctan_inv45_lt : Real.arctan (1 / 45) < 0.1 := by
  have h := arctan_lt_self (by norm_num : (0 : ℝ) < 1 / 45)
  linarith

lemma arctan_inv45_pos : 0 < Real.arctan (1 / 45) := arctan_pos (by norm_num)

lemma rawAngle_BC : rawAngle segBC = Real.arctan (1 / 45) := by
  unfold rawAngle segBC
  show atan2 (0.002 / mBC) (0.09 / mBC) = _
  rw [atan2_of_pos (div_pos (by norm_num) mBC_pos)]
  congr 1
  have hne := ne_of_gt mBC_pos
  field_simp
  norm_num

lemma collinear_A_BC : isCollinear segA7 segBC := by
  unfold isCollinear
  rw [rawAngle_A7, rawAngle_BC]
  have h1 := arctan_inv45_pos
  have h2 := arctan_inv45_lt
  have hp := Real.pi_gt_three
  have hmod : pymod (0 - Real.arctan (1 / 45)) π =
      -Real.arctan (1 / 45) + π := by
    rw [show (0 : ℝ) - Real.arctan (1 / 45) = -(Real.arctan (1 / 45)) by ring]
    exact pymod_of_neg_ge (by linarith) (by linarith) Real.pi_pos
  rw [hmod]
  right
  have hin : |(-Real.arctan (1 / 45) + π)| = -Real.arctan (1 / 45) + π :=
    abs_of_pos (by linarith)
  rw [hin]
  have hout : |(-Real.arctan (1 / 45) + π) - π| = Real.arctan (1 / 45) := by
    rw [abs_of_neg (by linarith)]
    ring
  rw [hout]
  linarith

lemma merge_A_BC : mergeSegments [segA7, segBC] = [fuse segA7 segBC] := by
  show mergeLoop segA7 none [segBC] = _
  rw [mergeLoop, if_pos collinear_A_BC]
  have hg : dist2 segA7.pstop segBC.pstart = 0 := by
    unfold dist2 segA7 segBC
    norm_num
  rw [hg, if_pos (by norm_num : (0 : ℝ) < 0.1)]
  rfl

/-- C7 counterexample: the collinear merger is not idempotent.  On the
concrete chain `[segA7, segB7, segC7]` one pass produces two merged
segments, but a second pass over that very output fuses them into one:
fusing the two short vertical pieces across their lateral 0.09 gap tilts
the recomputed direction almost horizontal, which a second pass then sees
as collinear with the horizontal first segment. -/
theorem C7_merge_not_idempotent :
    mergeSegments (mergeSegments [segA7, segB7, segC7]) ≠
      mergeSegments [segA7, segB7, segC7] := by
  rw [merge_ABC, merge_A_BC]
  intro h
  have h2 := congrArg List.length h
  simp at h2

/-- C7 (amended): merging is not idempotent in general — a second pass can
fuse a segment with a following merged segment whose recomputed direction
became collinear — but the merge fold does leave unchanged every segment
list whose adjacent segments are pairwise non-collinear. -/
theorem C7_merge_fixes_noncollinear_chains (l : List Seg)
    (h : List.Chain' (fun a b => ¬ isCollinear a b) l) : mergeSegments l = l := by
  match l, h with
  | [], _ => rfl
  | s :: rest, h =>
    show mergeLoop s none rest = s :: rest
    induction rest generalizing s with
    | nil => rfl
    | cons t ts ih =>
      rw [List.chain'_cons] at h
      rw [mergeLoop, if_neg h.1]
      rw [ih t h.2]

/-- C7 witness: a horizontal and a vertical segment are adjacent and
non-collinear, and the merge fold returns them unchanged. -/
theorem C7_merge_fixes_witness :
    List.Chain' (fun a b : Seg => ¬ isCollinear a b) [segA7, segB7] ∧
      mergeSegments [segA7, segB7] = [segA7, segB7] := by
  have hc : List.Chain' (fun a b : Seg => ¬ isCollinear a b) [segA7, segB7] := by
    rw [List.chain'_cons]
    exact ⟨not_collinear_AB, by simp⟩
  exact ⟨hc, C7_merge_fixes_noncollinear_chains [segA7, segB7] hc⟩

lemma collides_nil (m : Pt) : collides [] m ↔ False := by
  simp [collides]

lemma normalizeWallAngle_zero : normalizeWallAngle 0 = 0 := by
  unfold normalizeWallAngle
  rw [pymod_zero Real.pi_pos,
    if_neg (by linarith [Real.pi_pos] : ¬ (π / 2 < (0 : ℝ)))]

lemma findMatch_W150_150 : findMatch ["W150"] 150 = some ("W150") := by
  have hw : widthMatches 150 ("W150") = true := by
    unfold widthMatches
    rw [show extractWidth ("W150") = some 150 from rfl]
    rw [decide_eq_true_eq]
    push_cast
    norm_num
  unfold findMatch
  rw [List.find?_cons_of_pos _ hw]

lemma pyround_tft : pyround (tft * 304.8) = 150 := by
  rw [show tft * 304.8 = (150 : ℝ) from by unfold tft; norm_num]
  have hf : Int.fract ((150 : ℝ)) ≠ 1 / 2 := by
    rw [Int.fract]
    norm_num
  rw [pyround_eq_round hf, round_eq]
  norm_num

lemma rawAngle_s1x : rawAngle s1x = 0 := atan2_zero_one

lemma rawAngle_s3x : rawAngle s3x = 0 := atan2_zero_one

lemma pairCompute_s12 : pairCompute s1x s2x = (⟨5, tft / 2, 0⟩, tft) := by
  unfold pairCompute segMid
  have ht : (0 : ℝ) < tft := by unfold tft; norm_num
  norm_num [s1x, s2x]
  exact le_of_lt ht

lemma pairCompute_s34 : pairCompute s3x s4x = (⟨4, 100 + tft / 2, 0⟩, tft) := by
  unfold pairCompute segMid
  have ht : (0 : ℝ) < tft := by unfold tft; norm_num
  norm_num [s3x, s4x]
  constructor
  · ring
  · exact le_of_lt ht

lemma pairPlacement_s12 : pairPlacement s1x s2x ("W150") = PX := by
  unfold pairPlacement
  rw [if_pos (show s2x.len < s1x.len from by norm_num [s1x, s2x])]
  dsimp only
  rw [pairCompute_s12, rawAngle_s1x, normalizeWallAngle_zero]
  rfl

lemma pairPlacement_s34 : pairPlacement s3x s4x ("W150") = PY := by
  unfold pairPlacement
  rw [if_pos (show s4x.len < s3x.len from by norm_num [s3x, s4x])]
  dsimp only
  rw [pairCompute_s34, rawAngle_s3x, normalizeWallAngle_zero]
  rfl

lemma sortDescInsert_s2 : sortDescInsert s2x [s1x] = [s1x, s2x] := by
  unfold sortDescInsert
  rw [if_neg (show ¬ (s1x.len < s2x.len) from by norm_num [s1x, s2x])]
  rfl

lemma sortDescInsert_s3a : sortDescInsert s3x [s2x] = [s2x, s3x] := by
  unfold sortDescInsert
  rw [if_neg (show ¬ (s2x.len < s3x.len) from by norm_num [s2x, s3x])]
  rfl

lemma sortDescInsert_s3 : sortDescInsert s3x [s1x, s2x] = [s1x, s2x, s3x] := by
  show (if s1x.len < s3x.len then s3x :: s1x :: [s2x]
    else s1x :: sortDescInsert s3x [s2x]) = _
  rw [if_neg (show ¬ (s1x.len < s3x.len) from by norm_num [s1x, s3x]),
    sortDescInsert_s3a]

lemma sortDescInsert_s4b : sortDescInsert s4x [s3x] = [s3x, s4x] := by
  unfold sortDescInsert
  rw [if_neg (show ¬ (s3x.len < s4x.len) from by norm_num [s3x, s4x])]
  rfl

lemma sortDescInsert_s4a : sortDescInsert s4x [s2x, s3x] = [s2x, s3x, s4x] := by
  show (if s2x.len < s4x.len then s4x :: s2x :: [s3x]
    else s2x :: sortDescInsert s4x [s3x]) = _
  rw [if_neg (show ¬ (s2x.len < s4x.len) from by norm_num [s2x, s4x]),
    sortDescInsert_s4b]

lemma sortDescInsert_s4 :
    sortDescInsert s4x [s1x, s2x, s3x] = [s1x, s2x, s3x, s4x] := by
  show (if s1x.len < s4x.len then s4x :: s1x :: [s2x, s3x]
    else s1x :: sortDescInsert s4x [s2x, s3x]) = _
  rw [if_neg (show ¬ (s1x.len < s4x.len) from by norm_num [s1x, s4x]),
    sortDescInsert_s4a]

lemma sortDesc_s1234 :
    sortByLengthDesc [s1x, s2x, s3x, s4x] = [s1x, s2x, s3x, s4x] := by
  show sortDescInsert s4x (sortDescInsert s3x (sortDescInsert s2x
    (sortDescInsert s1x []))) = _
  rw [show sortDescInsert s1x [] = [s1x] from rfl, sortDescInsert_s2,
    sortDescInsert_s3, sortDescInsert_s4]

lemma inner_s12 :
    innerLoop ["W150"] [s1x, s2x, s3x, s4x] 0 (2 + 1) 1
      [false, false, false, false] [] =
      ([true, true, false, false], [pairPlacement s1x s2x ("W150")]) := by
  rw [innerLoop]
  simp only [List.getD_cons_zero, List.getD_cons_succ, Bool.false_eq_true,
    if_false, or_self, collides_nil, pairCompute_s12, pyround_tft,
    findMatch_W150_150]
  rfl

lemma pairsRun_1234 :
    processPairs ["W150"] [] [s1x, s2x, s3x, s4x] =
      [pairPlacement s1x s2x ("W150")] := by
  unfold processPairs
  rw [sortDesc_s1234]
  show (outerLoop ["W150"] [s1x, s2x, s3x, s4x] (3 + 1) 0
    (List.replicate (3 + 1) false) []).2 = _
  rw [show List.replicate (3 + 1) false = [false, false, false, false] from rfl]
  rw [outerLoop]
  rw [if_neg (show ¬ (([false, false, false, false] : List Bool).getD 0 false =
    true) from by simp)]
  show (if ((innerLoop ["W150"] [s1x, s2x, s3x, s4x] 0 (2 + 1) 1
      [false, false, false, false] []).1.getD 0 false) then
      innerLoop ["W150"] [s1x, s2x, s3x, s4x] 0 (2 + 1) 1
        [false, false, false, false] []
    else outerLoop ["W150"] [s1x, s2x, s3x, s4x] 3 1
      (innerLoop ["W150"] [s1x, s2x, s3x, s4x] 0 (2 + 1) 1
        [false, false, false, false] []).1
      (innerLoop ["W150"] [s1x, s2x, s3x, s4x] 0 (2 + 1) 1
        [false, false, false, false] []).2).2 = _
  rw [inner_s12]
  rfl

lemma inner_s34 :
    innerLoop ["W150"] [s3x, s4x] 0 (0 + 1) 1 [false, false] [] =
      ([true, true], [pairPlacement s3x s4x ("W150")]) := by
  rw [innerLoop]
  simp only [List.getD_cons_zero, List.getD_cons_succ, Bool.false_eq_true,
    if_false, or_self, collides_nil, pairCompute_s34, pyround_tft,
    findMatch_W150_150]
  rfl

lemma pairsRun_34 :
    processPairs ["W150"] [] [s3x, s4x] = [pairPlacement s3x s4x ("W150")] := by
  unfold processPairs
  rw [show sortByLengthDesc [s3x, s4x] = [s3x, s4x] from by
    show sortDescInsert s4x (sortDescInsert s3x []) = _
    rw [show sortDescInsert s3x [] = [s3x] from rfl, sortDescInsert_s4b]]
  show (outerLoop ["W150"] [s3x, s4x] (1 + 1) 0
    (List.replicate (1 + 1) false) []).2 = _
  rw [show List.replicate (1 + 1) false = [false, false] from rfl]
  rw [outerLoop]
  rw [if_neg (show ¬ (([false, false] : List Bool).getD 0 false = true) from
    by simp)]
  show (if ((innerLoop ["W150"] [s3x, s4x] 0 (0 + 1) 1
      [false, false] []).1.getD 0 false) then
      innerLoop ["W150"] [s3x, s4x] 0 (0 + 1) 1 [false, false] []
    else outerLoop ["W150"] [s3x, s4x] 1 1
      (innerLoop ["W150"] [s3x, s4x] 0 (0 + 1) 1 [false, false] []).1
      (innerLoop ["W150"] [s3x, s4x] 0 (0 + 1) 1 [false, false] []).2).2 = _
  rw [inner_s34]
  rfl

/-- C1 counterexample: the direction group `[s1x, s2x, s3x, s4x]` contains
two disjoint catalog-matching parallel pairs — `(s1x, s2x)` and
`(s3x, s4x)`, the latter shown matchable by processing it alone — yet
processing the four-segment group emits only the single placement of the
first pair: after a match the code breaks out of the outer loop as well
(line 874), so no further unused pair of the group is matched. -/
theorem C1_outer_loop_break_counterexample :
    processGroup ["W150"] [] [s1x, s2x, s3x, s4x] = some [PX] ∧
      processGroup ["W150"] [] [s3x, s4x] = some [PY] := by
  constructor
  · show some (processPairs ["W150"] [] [s1x, s2x, s3x, s4x]) = _
    rw [pairsRun_1234, pairPlacement_s12]
  · show some (processPairs ["W150"] [] [s3x, s4x]) = _
    rw [pairsRun_34, pairPlacement_s34]

/-- C8: degenerate geometry is safe — an element with fewer than two
points yields no segments and leaves the placements untouched, a segment
of planar magnitude below 1e-9 gets the zero direction vector instead of
a division, and whenever the division does happen its divisor is
nonzero. -/
theorem C8_degenerate_geometry_safe :
    (∀ (cat : List String) (acc : List Placement) (e : Element)
      (pts : List Pt), elementPts e = some pts → pts.length < 2 →
      buildSegments pts = [] ∧ processElement cat acc e = some acc) ∧
    (∀ p q : Pt, segMag p q < 1 / 1000000000 →
      segment_direction p q = (0, 0)) ∧
    (∀ p q : Pt, ¬ (segMag p q < 1 / 1000000000) → segMag p q ≠ 0 ∧
      segment_direction p q =
        ((q.x - p.x) / segMag p q, (q.y - p.y) / segMag p q)) := by
  refine ⟨?_, ?_, ?_⟩
  · intro cat acc e pts hpts hlen
    have hseg : buildSegments pts = [] := by
      match pts, hlen with
      | [], _ => rfl
      | [p], _ => rfl
    refine ⟨hseg, ?_⟩
    unfold processElement
    split
    · rw [hpts]
      show (if pts.length < 2 then some acc
        else processGroupList cat acc (groupsOfPts pts)) = some acc
      rw [if_pos hlen]
    · rfl
  · intro p q h
    unfold segment_direction
    rw [if_pos h]
  · intro p q h
    constructor
    · have h2 : 0 ≤ segMag p q := Real.sqrt_nonneg _
      push_neg at h
      intro hz
      rw [hz] at h
      norm_num at h
    · unfold segment_direction
      rw [if_neg h]

/-- C8 witness: instantiation at a one-point element, a degenerate
zero-length point pair, and a unit-length point pair. -/
theorem C8_degenerate_geometry_witness :
    elementPts e1pt = some [⟨0, 0, 0⟩] ∧
      ([(⟨0, 0, 0⟩ : Pt)]).length < 2 ∧
      (buildSegments [⟨0, 0, 0⟩] = [] ∧
        processElement ["W150"] [] e1pt = some []) ∧
      segMag ⟨0, 0, 0⟩ ⟨0, 0, 0⟩ < 1 / 1000000000 ∧
      segment_direction ⟨0, 0, 0⟩ ⟨0, 0, 0⟩ = (0, 0) ∧
      ¬ (segMag ⟨0, 0, 0⟩ ⟨1, 0, 0⟩ < 1 / 1000000000) ∧
      segMag ⟨0, 0, 0⟩ ⟨1, 0, 0⟩ ≠ 0 := by
  have hm0 : segMag (⟨0, 0, 0⟩ : Pt) ⟨0, 0, 0⟩ = 0 :=
    segMag_eval (by norm_num) le_rfl (by norm_num : (0 : ℝ) ^ 2 = 0)
  have hm1 : segMag (⟨0, 0, 0⟩ : Pt) ⟨1, 0, 0⟩ = 1 :=
    segMag_eval (by norm_num) (by norm_num) (by norm_num : (1 : ℝ) ^ 2 = 1)
  have hs : segMag (⟨0, 0, 0⟩ : Pt) ⟨0, 0, 0⟩ < 1 / 1000000000 := by
    rw [hm0]; norm_num
  have hns : ¬ (segMag (⟨0, 0, 0⟩ : Pt) ⟨1, 0, 0⟩ < 1 / 1000000000) := by
    rw [hm1]; norm_num
  refine ⟨rfl, by norm_num, C8_degenerate_geometry_safe.1 ["W150"] [] e1pt
    [⟨0, 0, 0⟩] rfl (by norm_num), hs,
    C8_degenerate_geometry_safe.2.1 ⟨0, 0, 0⟩ ⟨0, 0, 0⟩ hs, hns,
    (C8_degenerate_geometry_safe.2.2 ⟨0, 0, 0⟩ ⟨1, 0, 0⟩ hns).1⟩

lemma dedup_P7_P7b : dedupPlacements [P7, P7b] = [P7] := by
  have hequiv : equivPlacement P7b P7 := by
    refine ⟨?_, by norm_num [P7, P7b], rfl⟩
    show dist3 P7b.mid P7.mid < 0.01
    unfold dist3 P7 P7b
    rw [show (((7 : ℝ) / 2 - (7 / 2 + 0.001)) ^ 2 + ((0 : ℝ) - 0) ^ 2 +
      ((0 : ℝ) - 0) ^ 2) = (0.000001 : ℝ) from by norm_num]
    rw [sqrt_eq_of_sq (by norm_num) (by norm_num : (0.001 : ℝ) ^ 2 = 0.000001)]
    norm_num
  show dedupStep (dedupStep [] P7) P7b = [P7]
  rw [show dedupStep [] P7 = [P7] from by simp [dedupStep]]
  unfold dedupStep
  rw [if_pos ⟨P7, by simp, hequiv⟩]

lemma P7b_ne_P7 : P7b ≠ P7 := by
  intro h
  have h2 := congrArg (fun p => p.mid.x) h
  simp only [P7, P7b] at h2
  norm_num at h2

/-- C6 witness: instantiation of the deduplication invariant at a
two-element list whose second entry is a near-duplicate of the first. -/
theorem C6_dedup_invariant_witness :
    P7b ∈ [P7, P7b] ∧ P7b ∉ dedupPlacements [P7, P7b] ∧
      ∃ e ∈ dedupPlacements [P7, P7b], equivPlacement P7b e := by
  have hnot : P7b ∉ dedupPlacements [P7, P7b] := by
    rw [dedup_P7_P7b]
    simp [P7b_ne_P7]
  exact ⟨by simp, hnot,
    (C6_dedup_invariant [P7, P7b]).2.1 P7b (by simp) hnot⟩

lemma tft_pos : 0 < tft := by unfold tft; norm_num

lemma cth_pos : 0 < cth := by
  unfold cth
  positivity

lemma cth_sq : cth * cth = 1 / 2 := by
  unfold cth
  rw [div_mul_div_comm, Real.mul_self_sqrt (by norm_num : (0 : ℝ) ≤ 2)]
  norm_num

lemma pairCompute_sD : pairCompute sD1 sD2 =
    (⟨5 * cth + tft * cth / 2, -5 * cth + tft * cth / 2, 0⟩, tft) := by
  unfold pairCompute segMid
  have hlt : sD2.len < sD1.len := by norm_num [sD1, sD2]
  rw [if_pos hlt, if_pos hlt]
  dsimp only [sD1, sD2]
  simp only [Prod.mk.injEq, Pt.mk.injEq]
  refine ⟨⟨?_, ?_, ?_⟩, ?_⟩
  · linear_combination (5 * cth) * cth_sq
  · linear_combination (-5 * cth) * cth_sq
  · norm_num
  · rw [abs_eq (le_of_lt tft_pos)]
    right
    linear_combination (-2 * tft) * cth_sq

lemma rawAngle_sD1 : rawAngle sD1 = -(π / 4) := by
  unfold rawAngle sD1
  show atan2 (-cth) cth = _
  rw [atan2_of_pos cth_pos, neg_div, div_self (ne_of_gt cth_pos),
    Real.arctan_neg, Real.arctan_one]

lemma normalizeWallAngle_neg_quarter :
    normalizeWallAngle (-(π / 4)) = -(5 * π / 4) := by
  have hp := Real.pi_pos
  unfold normalizeWallAngle
  rw [pymod_of_neg_ge (by linarith) (by linarith) hp]
  rw [if_pos (by linarith : π / 2 < -(π / 4) + π)]
  ring

lemma pairPlacement_sD : pairPlacement sD1 sD2 ("W150") = PD := by
  unfold pairPlacement
  rw [if_pos (show sD2.len < sD1.len from by norm_num [sD1, sD2])]
  dsimp only
  rw [pairCompute_sD, rawAngle_sD1, normalizeWallAngle_neg_quarter]
  rfl

lemma sortDesc_sD : sortByLengthDesc [sD1, sD2] = [sD1, sD2] := by
  show sortDescInsert sD2 (sortDescInsert sD1 []) = _
  rw [show sortDescInsert sD1 [] = [sD1] from rfl]
  unfold sortDescInsert
  rw [if_neg (show ¬ (sD1.len < sD2.len) from by norm_num [sD1, sD2])]
  rfl

lemma inner_sD :
    innerLoop ["W150"] [sD1, sD2] 0 (0 + 1) 1 [false, false] [] =
      ([true, true], [pairPlacement sD1 sD2 ("W150")]) := by
  rw [innerLoop]
  simp only [List.getD_cons_zero, List.getD_cons_succ, Bool.false_eq_true,
    if_false, or_self, collides_nil, pairCompute_sD, pyround_tft,
    findMatch_W150_150]
  rfl

lemma pairsRun_sD :
    processPairs ["W150"] [] [sD1, sD2] = [pairPlacement sD1 sD2 ("W150")] := by
  unfold processPairs
  rw [sortDesc_sD]
  show (outerLoop ["W150"] [sD1, sD2] (1 + 1) 0
    (List.replicate (1 + 1) false) []).2 = _
  rw [show List.replicate (1 + 1) false = [false, false] from rfl]
  rw [outerLoop]
  rw [if_neg (show ¬ (([false, false] : List Bool).getD 0 false = true) from
    by simp)]
  show (if ((innerLoop ["W150"] [sD1, sD2] 0 (0 + 1) 1
      [false, false] []).1.getD 0 false) then
      innerLoop ["W150"] [sD1, sD2] 0 (0 + 1) 1 [false, false] []
    else outerLoop ["W150"] [sD1, sD2] 1 1
      (innerLoop ["W150"] [sD1, sD2] 0 (0 + 1) 1 [false, false] []).1
      (innerLoop ["W150"] [sD1, sD2] 0 (0 + 1) 1 [false, false] []).2).2 = _
  rw [inner_sD]
  rfl

/-- C3 counterexample: the pair `[sD1, sD2]` of down-right diagonal
segments (raw atan2 angle −π/4) matches the catalog, and the emitted
placement's angle is −5π/4, which lies outside `(−π/2, π/2]`; the
normalization subtracts π although the raw angle was already there, so
mirror-image directions do not share one representative. -/
theorem C3_angle_counterexample :
    processGroup ["W150"] [] [sD1, sD2] = some [PD] ∧
      ¬ (-(π / 2) < PD.angle ∧ PD.angle ≤ π / 2) := by
  constructor
  · show some (processPairs ["W150"] [] [sD1, sD2]) = _
    rw [pairsRun_sD, pairPlacement_sD]
  · rintro ⟨h1, h2⟩
    have hp := Real.pi_pos
    rw [show PD.angle = -(5 * π / 4) from rfl] at h1
    linarith

lemma singletonFam_W150 (s : Seg) : singletonFam ["W150"] s = "W150" := by
  unfold singletonFam
  cases h : findMatch ["W150"] (pyround (s.len * 304.8)) with
  | none => rfl
  | some fam =>
    have hmem : fam ∈ ["W150"] := List.mem_of_find?_eq_some h
    simp only [List.mem_singleton] at hmem
    rw [hmem]

lemma mE_pos : 0 < mE := Real.sqrt_pos.mpr (by norm_num)

lemma rawAngle_segE : rawAngle segE = Real.arctan 0.005 := by
  unfold rawAngle segE
  show atan2 (0.005 / mE) (1 / mE) = _
  rw [atan2_of_pos (div_pos one_pos mE_pos)]
  congr 1
  have hne := ne_of_gt mE_pos
  field_simp

lemma segMid_segE : segMid segE = ⟨1 / 2, 0.0025, 0⟩ := by
  unfold segMid segE
  norm_num

lemma arctan_0005_pos : 0 < Real.arctan 0.005 := arctan_pos (by norm_num)

lemma arctan_0005_lt : Real.arctan 0.005 < 0.01 := by
  have h := arctan_lt_self (by norm_num : (0 : ℝ) < 0.005)
  linarith

lemma snap_angle_would_snap : snap_angle (Real.arctan 0.005) = 0 := by
  have h1 := arctan_0005_pos
  have h2 := arctan_0005_lt
  have hp := Real.pi_gt_three
  unfold snap_angle
  rw [pymod_of_nonneg_lt (le_of_lt h1) (by linarith)]
  rw [if_pos (by rw [sub_zero, abs_of_pos h1]; linarith)]

/-- C4 counterexample: the singleton group `[segE]` has computed angle
`arctan 0.005`, within 0.01 rad of the cardinal 0, yet the engine emits
that raw angle unchanged (nonzero), even though `snap_angle` — which the
architectural branch never calls — would have replaced it by exactly 0. -/
theorem C4_no_snap_counterexample :
    processGroup ["W150"] [] [segE] = some [PE] ∧
      |Real.arctan 0.005 - 0| < 0.01 ∧ PE.angle = Real.arctan 0.005 ∧
      PE.angle ≠ 0 ∧ snap_angle PE.angle = 0 := by
  refine ⟨?_, ?_, rfl, ?_, ?_⟩
  · show processSingleton ["W150"] [] segE = _
    rw [processSingleton_emits ["W150"] [] segE rfl (by simp [collides])
      (by simp)]
    rw [segMid_segE, rawAngle_segE, singletonFam_W150]
    rfl
  · rw [sub_zero, abs_of_pos arctan_0005_pos]
    exact arctan_0005_lt
  · show Real.arctan 0.005 ≠ 0
    exact ne_of_gt arctan_0005_pos
  · show snap_angle (Real.arctan 0.005) = 0
    exact snap_angle_would_snap

lemma sqrt100 : Real.sqrt 100 = 10 := sqrt_eq_of_sq (by norm_num) (by norm_num)

lemma segdir_10a : segment_direction ⟨0, 0, 0⟩ ⟨10, 0, 0⟩ = (1, 0) := by
  rw [segment_direction_eval
    (segMag_eval (by norm_num) (by norm_num) (by norm_num : (10 : ℝ) ^ 2 = 100))
    (by norm_num)]
  norm_num

lemma segdir_10b : segment_direction ⟨0, tft, 0⟩ ⟨10, tft, 0⟩ = (1, 0) := by
  rw [segment_direction_eval
    (segMag_eval (by norm_num) (by norm_num) (by norm_num : (10 : ℝ) ^ 2 = 100))
    (by norm_num)]
  norm_num

lemma dist2_10a : dist2 ⟨0, 0, 0⟩ ⟨10, 0, 0⟩ = 10 := by
  unfold dist2
  norm_num [sqrt100]

lemma dist2_10b : dist2 ⟨0, tft, 0⟩ ⟨10, tft, 0⟩ = 10 := by
  unfold dist2
  norm_num [sqrt100]

lemma buildSegments_e10a : buildSegments [⟨0, 0, 0⟩, ⟨10, 0, 0⟩] = [seg10a] := by
  show [(⟨⟨0, 0, 0⟩, ⟨10, 0, 0⟩, segment_direction ⟨0, 0, 0⟩ ⟨10, 0, 0⟩,
    dist2 ⟨0, 0, 0⟩ ⟨10, 0, 0⟩, false⟩ : Seg)] = [seg10a]
  rw [segdir_10a, dist2_10a]
  rfl

lemma buildSegments_e10b :
    buildSegments [⟨0, tft, 0⟩, ⟨10, tft, 0⟩] = [seg10b] := by
  show [(⟨⟨0, tft, 0⟩, ⟨10, tft, 0⟩, segment_direction ⟨0, tft, 0⟩ ⟨10, tft, 0⟩,
    dist2 ⟨0, tft, 0⟩ ⟨10, tft, 0⟩, false⟩ : Seg)] = [seg10b]
  rw [segdir_10b, dist2_10b]
  rfl

lemma processElement_e10a (cat : List String) (acc : List Placement) :
    processElement cat acc e10a = processSingleton cat acc seg10a := by
  unfold processElement
  rw [if_pos (by decide : validElementType e10a.etype)]
  show (if ([⟨0, 0, 0⟩, ⟨10, 0, 0⟩] : List Pt).length < 2 then some acc
    else processGroupList cat acc (groupsOfPts [⟨0, 0, 0⟩, ⟨10, 0, 0⟩])) = _
  rw [if_neg (by norm_num)]
  rw [show groupsOfPts [⟨0, 0, 0⟩, ⟨10, 0, 0⟩] =
    [(segGroupAngle seg10a, [seg10a])] from by
      unfold groupsOfPts
      rw [buildSegments_e10a]
      rfl]
  show (processGroup cat acc [seg10a]).bind
    (fun a2 => processGroupList cat a2 []) = _
  cases h : processSingleton cat acc seg10a with
  | none => simp [processGroup, h]
  | some a => simp [processGroup, processGroupList, h]

lemma processElement_e10b (cat : List String) (acc : List Placement) :
    processElement cat acc e10b = processSingleton cat acc seg10b := by
  unfold processElement
  rw [if_pos (by decide : validElementType e10b.etype)]
  show (if ([⟨0, tft, 0⟩, ⟨10, tft, 0⟩] : List Pt).length < 2 then some acc
    else processGroupList cat acc (groupsOfPts [⟨0, tft, 0⟩, ⟨10, tft, 0⟩])) = _
  rw [if_neg (by norm_num)]
  rw [show groupsOfPts [⟨0, tft, 0⟩, ⟨10, tft, 0⟩] =
    [(segGroupAngle seg10b, [seg10b])] from by
      unfold groupsOfPts
      rw [buildSegments_e10b]
      rfl]
  show (processGroup cat acc [seg10b]).bind
    (fun a2 => processGroupList cat a2 []) = _
  cases h : processSingleton cat acc seg10b with
  | none => simp [processGroup, h]
  | some a => simp [processGroup, processGroupList, h]

lemma processSingleton_e10a :
    processSingleton ["W150"] [] seg10a = some [P10a] := by
  rw [processSingleton_emits ["W150"] [] seg10a rfl (by simp [collides])
    (by simp)]
  rw [show segMid seg10a = ⟨5, 0, 0⟩ from by unfold segMid seg10a; norm_num]
  rw [show rawAngle seg10a = 0 from atan2_zero_one, singletonFam_W150]
  rfl

lemma dist3_P10 : dist3 P10a.mid ⟨5, tft, 0⟩ = tft := by
  unfold dist3 P10a
  rw [show (((5 : ℝ) - 5) ^ 2 + (tft - 0) ^ 2 + ((0 : ℝ) - 0) ^ 2) = tft ^ 2
    from by ring]
  exact Real.sqrt_sq (le_of_lt tft_pos)

lemma no_collision_e10b : ¬ collides [P10a] (segMid seg10b) := by
  rw [show segMid seg10b = ⟨5, tft, 0⟩ from by unfold segMid seg10b; norm_num]
  rintro ⟨p, hp, hlt⟩
  simp only [List.mem_singleton] at hp
  subst hp
  rw [dist3_P10] at hlt
  unfold tft at hlt
  norm_num at hlt

lemma processSingleton_e10b :
    processSingleton ["W150"] [P10a] seg10b = some [P10a, P10b] := by
  rw [processSingleton_emits ["W150"] [P10a] seg10b rfl no_collision_e10b
    (by simp)]
  rw [show segMid seg10b = ⟨5, tft, 0⟩ from by unfold segMid seg10b; norm_num]
  rw [show rawAngle seg10b = 0 from atan2_zero_one, singletonFam_W150]
  rfl

lemma dedup_P10 : dedupPlacements [P10a, P10b] = [P10a, P10b] := by
  show dedupStep (dedupStep [] P10a) P10b = _
  rw [show dedupStep [] P10a = [P10a] from by simp [dedupStep]]
  unfold dedupStep
  rw [if_neg ?_]
  · rfl
  · rintro ⟨e, he, h1, h2, h3⟩
    simp only [List.mem_singleton] at he
    subst he
    rw [show dist3 P10b.mid P10a.mid = tft from by
      rw [dist3_symm]
      exact dist3_P10] at h1
    unfold tft at h1
    norm_num at h1

lemma key_P10a : placementKey P10a = 5 := by
  unfold placementKey P10a
  norm_num

lemma key_P10b : placementKey P10b = 5 := by
  unfold placementKey P10b
  norm_num

lemma sort_P10 : sortPlacements [P10a, P10b] = [P10a, P10b] := by
  show sortAscInsert P10b (sortAscInsert P10a []) = _
  rw [show sortAscInsert P10a [] = [P10a] from rfl]
  unfold sortAscInsert
  rw [if_pos (by rw [key_P10a, key_P10b])]
  rfl

lemma engine_e10 : engineOutput ["W150"] [e10a, e10b] = some [P10a, P10b] := by
  unfold engineOutput
  have h1 : processElements ["W150"] [e10a, e10b] [] = some [P10a, P10b] := by
    unfold processElements
    rw [processElement_e10a, processSingleton_e10a]
    show processElements ["W150"] [e10b] [P10a] = _
    unfold processElements
    rw [processElement_e10b, processSingleton_e10b]
    rfl
  rw [h1]
  simp only [Option.map_some']
  rw [dedup_P10, sort_P10]

/-- C5: the merge/group/match pipeline runs independently per input
element — the per-element fold is explicit, an element's groups are built
solely from that element's own points, and two parallel standalone
elements whose separation matches the catalog are each matched by the
singleton path (two full-length placements) instead of being paired. -/
theorem C5_grouping_scoped_per_element :
    (∀ (cat : List String) (e : Element) (es : List Element)
      (acc : List Placement), processElements cat (e :: es) acc =
        (processElement cat acc e).bind (processElements cat es)) ∧
    (∀ (cat : List String) (acc : List Placement) (e : Element)
      (pts : List Pt), validElementType e.etype → elementPts e = some pts →
      ¬ (pts.length < 2) →
      processElement cat acc e = processGroupList cat acc (groupsOfPts pts)) ∧
    engineOutput ["W150"] [e10a, e10b] = some [P10a, P10b] := by
  refine ⟨fun cat e es acc => rfl, ?_, engine_e10⟩
  intro cat acc e pts hv hpts hlen
  unfold processElement
  rw [if_pos hv, hpts]
  show (if pts.length < 2 then some acc
    else processGroupList cat acc (groupsOfPts pts)) = _
  rw [if_neg hlen]

/-- C5 witness: instantiation of the element-scoping equation at the
concrete element `e10a`. -/
theorem C5_grouping_witness :
    validElementType e10a.etype ∧
      elementPts e10a = some [⟨0, 0, 0⟩, ⟨10, 0, 0⟩] ∧
      ¬ (([(⟨0, 0, 0⟩ : Pt), ⟨10, 0, 0⟩]).length < 2) ∧
      processElement ["W150"] [] e10a =
        processGroupList ["W150"] [] (groupsOfPts [⟨0, 0, 0⟩, ⟨10, 0, 0⟩]) :=
  ⟨by decide, rfl, by norm_num,
    C5_grouping_scoped_per_element.2.1 ["W150"] [] e10a
      [⟨0, 0, 0⟩, ⟨10, 0, 0⟩] (by decide) rfl (by norm_num)⟩

end WallModel
